import Mathlib

/-!
# bits-service: sharded blob paths, partitioning decorators, the sign handler

A shallow embedding of

* `routes/partitioning_path_blobstore_decorator.go` (pathFor, the Blobstore decorator and
  the ResourceSigner decorator),
* `sign_handler.go` (SignResourceHandler),
* `eirini_registry/blobondemand/blonde_test.go` (TestSaveLoad) together with a model of the
  content addressable store it exercises,

followed by the theorems about them.

Conventions. A Go string is its sequence of bytes. A method of a Go interface value that
may touch the world is a function that takes the state of that value and returns its
results paired with the next state. A run-time panic is the result `none`.
-/

/-! ## Go strings and formatting -/

/-- A Go string: an immutable sequence of bytes; len and slice expressions count bytes. -/
abbrev GoString := List UInt8

/-- The bytes of an ASCII string literal. -/
def ascii (s : String) : GoString := s.toList.map (fun c => UInt8.ofNat c.toNat)

/-- The byte of the separator '/'. -/
def slash : UInt8 := 47

/-- Go slice expression s[lo:hi] on a string. A bound out of range is a run-time panic,
rendered as none. -/
def strSlice (s : GoString) (lo hi : Nat) : Option GoString :=
  if lo ≤ hi ∧ hi ≤ s.length then some ((s.take hi).drop lo) else none

/-- The result of fmt.Sprintf("%s/%s", a, b) on string operands. -/
def Sprintf2 (a b : GoString) : GoString := a ++ [slash] ++ b

/-- The result of fmt.Sprintf("%s/%s/%s", a, b, c) on string operands. -/
def Sprintf3 (a b c : GoString) : GoString := a ++ [slash] ++ b ++ [slash] ++ c

/-! ## Package time (standard library), as far as the handler uses it -/

/-- Go time.Duration: a signed count of nanoseconds. -/
abbrev Duration := Int

/-- Go time.Nanosecond. -/
def Nanosecond : Duration := 1
/-- Go time.Microsecond. -/
def Microsecond : Duration := 1000 * Nanosecond
/-- Go time.Millisecond. -/
def Millisecond : Duration := 1000 * Microsecond
/-- Go time.Second. -/
def Second : Duration := 1000 * Millisecond
/-- Go time.Minute. -/
def Minute : Duration := 60 * Second
/-- Go time.Hour. -/
def Hour : Duration := 60 * Minute

/-- The largest value of an int64. -/
def maxInt64 : Int := 2 ^ 63 - 1

/-- The value an int64 holds after an arithmetic result x that may overflow: x wrapped
around into the range of the type. -/
def wrapInt64 (x : Int) : Int := (x + 2 ^ 63) % 2 ^ 64 - 2 ^ 63

/-- Go time.Time as the wall instant it denotes: sec is the int64 count of seconds since
January 1 of year 1 and nsec the nanoseconds within that second. The location and the
monotonic clock reading, which Add carries along without effect on the instant, are left
out. -/
structure Time where
  sec : Int
  nsec : Int
deriving DecidableEq, Repr

/-- The invariant of a time.Time value: the seconds fit an int64 and the nanoseconds lie
in the range [0, 999999999]. -/
def Time.valid (t : Time) : Prop :=
  -(2 ^ 63) ≤ t.sec ∧ t.sec ≤ maxInt64 ∧ 0 ≤ t.nsec ∧ t.nsec < 1000000000

instance (t : Time) : Decidable t.valid := by
  unfold Time.valid
  infer_instance

/-- Go Time.addSec of the standard library: adds d seconds; a sum that overflows the
int64 is replaced by the last, or the first, representable second. -/
def Time.addSec (t : Time) (d : Int) : Time :=
  let sum := wrapInt64 (t.sec + d)
  if decide (sum > t.sec) = decide (d > 0) then
    { t with sec := sum }
  else if d > 0 then
    { t with sec := 2 ^ 63 - 1 }
  else
    { t with sec := -(2 ^ 63 - 1) }

/-- Go Time.Add of the standard library: the time t+d (the division and the remainder of
Go truncate toward zero). -/
def Time.Add (t : Time) (d : Duration) : Time :=
  let dsec := Int.tdiv d 1000000000
  let nsec := t.nsec + Int.tmod d 1000000000
  if nsec ≥ 1000000000 then
    ({ t with nsec := nsec - 1000000000 } : Time).addSec (dsec + 1)
  else if nsec < 0 then
    ({ t with nsec := nsec + 1000000000 } : Time).addSec (dsec - 1)
  else
    ({ t with nsec := nsec } : Time).addSec dsec

/-- A value handed to a recording test double as one argument of a call. -/
inductive Arg where
  | str (s : GoString)
  | time (t : Time)
deriving DecidableEq, Repr

/-! ## Package routes -/

namespace routes

/-- Go pathFor of partitioning_path_blobstore_decorator.go. -/
def pathFor (identifier : GoString) : Option GoString :=
  if identifier.length ≥ 4 then do
    let a ← strSlice identifier 0 2
    let b ← strSlice identifier 2 4
    pure (Sprintf3 a b identifier)
  else if identifier.length = 3 then do
    let a ← strSlice identifier 0 2
    let b ← strSlice identifier 2 3
    pure (Sprintf3 a b identifier)
  else if identifier.length = 2 then do
    let a ← strSlice identifier 0 2
    pure (Sprintf2 a identifier)
  else if identifier.length = 1 then do
    let a ← strSlice identifier 0 1
    pure (Sprintf2 a identifier)
  else
    pure []

/-- The rewrite table of the specification (shard), written row by row on the bytes of
the identifier; it is the second definition pathFor is compared with. -/
def shard : GoString → GoString
  | [] => []
  | [a] => [a] ++ [slash] ++ [a]
  | [a, b] => [a, b] ++ [slash] ++ [a, b]
  | [a, b, c] => [a, b] ++ [slash] ++ [c] ++ [slash] ++ [a, b, c]
  | a :: b :: c :: d :: rest =>
    [a, b] ++ [slash] ++ [c, d] ++ [slash] ++ (a :: b :: c :: d :: rest)

/-- The Blobstore interface of package routes, with the method set the decorator
implements and calls. σ is the state of the value behind the interface, β the type of
bodies (io.ReadCloser values, nil among them), ρ the type of upload sources
(io.ReadSeeker values) and ε the type of non-nil error values; a nil error is none. -/
structure Blobstore (σ β ρ ε : Type) where
  Get : GoString → σ → (β × GoString × Option ε) × σ
  Head : GoString → σ → (GoString × Option ε) × σ
  Put : GoString → ρ → σ → (GoString × Option ε) × σ
  Copy : GoString → GoString → σ → (GoString × Option ε) × σ
  Exists : GoString → σ → (Bool × Option ε) × σ
  Delete : GoString → σ → Option ε × σ
  DeletePrefix : GoString → σ → Option ε × σ

/-- Go struct PartitioningPathBlobstoreDecorator. -/
structure PartitioningPathBlobstoreDecorator (σ β ρ ε : Type) where
  delegate : Blobstore σ β ρ ε

/-- Go DecorateWithPartitioningPathBlobstore. -/
def DecorateWithPartitioningPathBlobstore {σ β ρ ε : Type} (delegate : Blobstore σ β ρ ε) :
    PartitioningPathBlobstoreDecorator σ β ρ ε :=
  ⟨delegate⟩

/-- Go method Get of the decorator. -/
def PartitioningPathBlobstoreDecorator.Get {σ β ρ ε : Type}
    (decorator : PartitioningPathBlobstoreDecorator σ β ρ ε) (path : GoString) (s : σ) :
    Option ((β × GoString × Option ε) × σ) := do
  let p ← pathFor path
  pure (decorator.delegate.Get p s)

/-- Go method Head of the decorator. -/
def PartitioningPathBlobstoreDecorator.Head {σ β ρ ε : Type}
    (decorator : PartitioningPathBlobstoreDecorator σ β ρ ε) (path : GoString) (s : σ) :
    Option ((GoString × Option ε) × σ) := do
  let p ← pathFor path
  pure (decorator.delegate.Head p s)

/-- Go method Put of the decorator. -/
def PartitioningPathBlobstoreDecorator.Put {σ β ρ ε : Type}
    (decorator : PartitioningPathBlobstoreDecorator σ β ρ ε) (path : GoString) (src : ρ)
    (s : σ) : Option ((GoString × Option ε) × σ) := do
  let p ← pathFor path
  pure (decorator.delegate.Put p src s)

/-- Go method Copy of the decorator. -/
def PartitioningPathBlobstoreDecorator.Copy {σ β ρ ε : Type}
    (decorator : PartitioningPathBlobstoreDecorator σ β ρ ε) (src dest : GoString) (s : σ) :
    Option ((GoString × Option ε) × σ) := do
  let p ← pathFor src
  let q ← pathFor dest
  pure (decorator.delegate.Copy p q s)

/-- Go method Exists of the decorator. -/
def PartitioningPathBlobstoreDecorator.Exists {σ β ρ ε : Type}
    (decorator : PartitioningPathBlobstoreDecorator σ β ρ ε) (path : GoString) (s : σ) :
    Option ((Bool × Option ε) × σ) := do
  let p ← pathFor path
  pure (decorator.delegate.Exists p s)

/-- Go method Delete of the decorator. -/
def PartitioningPathBlobstoreDecorator.Delete {σ β ρ ε : Type}
    (decorator : PartitioningPathBlobstoreDecorator σ β ρ ε) (path : GoString) (s : σ) :
    Option (Option ε × σ) := do
  let p ← pathFor path
  pure (decorator.delegate.Delete p s)

/-- Go method DeletePrefix of the decorator (its parameter is named pre here). -/
def PartitioningPathBlobstoreDecorator.DeletePrefix {σ β ρ ε : Type}
    (decorator : PartitioningPathBlobstoreDecorator σ β ρ ε) (pre : GoString) (s : σ) :
    Option (Option ε × σ) :=
  if pre = [] then
    pure (decorator.delegate.DeletePrefix pre s)
  else do
    let p ← pathFor pre
    pure (decorator.delegate.DeletePrefix p s)

/-- The ResourceSigner interface of package routes, with the method the decorator below
implements and calls: Sign(resource, method) returning the signed URL. -/
structure ResourceSigner (σ : Type) where
  Sign : GoString → GoString → σ → GoString × σ

/-- Go struct PartitioningPathResourceSigner. -/
structure PartitioningPathResourceSigner (σ : Type) where
  delegate : ResourceSigner σ

/-- Go DecorateWithPartitioningPathResourceSigner. -/
def DecorateWithPartitioningPathResourceSigner {σ : Type} (delegate : ResourceSigner σ) :
    PartitioningPathResourceSigner σ :=
  ⟨delegate⟩

/-- Go method Sign of PartitioningPathResourceSigner. -/
def PartitioningPathResourceSigner.Sign {σ : Type} (signer : PartitioningPathResourceSigner σ)
    (resource method : GoString) (s : σ) : Option (GoString × σ) := do
  let p ← pathFor resource
  pure (signer.delegate.Sign p method s)

/-! ### Test doubles for package routes -/

/-- One call received by a recording Blobstore double. -/
inductive Call (ρ : Type) where
  | Get (path : GoString)
  | Head (path : GoString)
  | Put (path : GoString) (src : ρ)
  | Copy (src dest : GoString)
  | Exists (path : GoString)
  | Delete (path : GoString)
  | DeletePrefix (pre : GoString)
deriving DecidableEq, Repr

/-- The canned answers of a recording Blobstore double, one function per method. -/
structure Answers (β ρ ε : Type) where
  get : GoString → β × GoString × Option ε
  head : GoString → GoString × Option ε
  put : GoString → ρ → GoString × Option ε
  copy : GoString → GoString → GoString × Option ε
  ex : GoString → Bool × Option ε
  delete : GoString → Option ε
  deletePrefix : GoString → Option ε

/-- A recording Blobstore double: its state is the list of calls received so far, oldest
first; every method appends its call and gives the canned answer. -/
def recorder {β ρ ε : Type} (ans : Answers β ρ ε) : Blobstore (List (Call ρ)) β ρ ε where
  Get p log := (ans.get p, log ++ [Call.Get p])
  Head p log := (ans.head p, log ++ [Call.Head p])
  Put p src log := (ans.put p src, log ++ [Call.Put p src])
  Copy p q log := (ans.copy p q, log ++ [Call.Copy p q])
  Exists p log := (ans.ex p, log ++ [Call.Exists p])
  Delete p log := (ans.delete p, log ++ [Call.Delete p])
  DeletePrefix p log := (ans.deletePrefix p, log ++ [Call.DeletePrefix p])

/-- A recording ResourceSigner double: its state is the list of the argument lists of the
Sign calls received so far; every call gives the canned URL. -/
def signRecorder (url : GoString → GoString → GoString) : ResourceSigner (List (List Arg)) where
  Sign p m log := (url p m, log ++ [[Arg.str p, Arg.str m]])

/-- An in-memory Blobstore used as delegate: the state lists the stored paths with their
content; DeletePrefix removes every stored path that starts with the prefix it is given. -/
def memStore : Blobstore (List (GoString × List UInt8)) (Option (List UInt8)) (List UInt8) Unit where
  Get p s :=
    match s.lookup p with
    | some c => ((some c, [], none), s)
    | none => ((none, [], some ()), s)
  Head p s := (([], if s.any (fun e => e.1 == p) then none else some ()), s)
  Put p src s := (([], none), (p, src) :: s.filter (fun e => !(e.1 == p)))
  Copy p q s :=
    match s.lookup p with
    | some c => (([], none), (q, c) :: s.filter (fun e => !(e.1 == q)))
    | none => (([], some ()), s)
  Exists p s := ((s.any (fun e => e.1 == p), none), s)
  Delete p s := (none, s.filter (fun e => !(e.1 == p)))
  DeletePrefix p s := (none, s.filter (fun e => !(p.isPrefixOf e.1)))

end routes

/-! ## Package bitsgo: sign_handler.go -/

namespace bitsgo

/-- Go interface ResourceSigner of sign_handler.go. -/
structure ResourceSigner (σ : Type) where
  Sign : GoString → GoString → Time → σ → GoString × σ

/-- The clock.Clock interface, as far as the handler uses it: Now gives the reading of
the clock at the moment the handler asks. -/
structure Clock where
  Now : Time

/-- Go struct SignResourceHandler. -/
structure SignResourceHandler (σ : Type) where
  signer : ResourceSigner σ
  clock : Clock

/-- Go NewSignResourceHandler; clock.New() is the system clock, which is handed in. -/
def NewSignResourceHandler {σ : Type} (signer : ResourceSigner σ) (systemClock : Clock) :
    SignResourceHandler σ :=
  { signer := signer, clock := systemClock }

/-- Go url.Values: the values given for each key of a query, in order (none for a key
that is absent). -/
abbrev Values := GoString → List GoString

/-- Go Values.Get: the first value of the key, the empty string when there is none. -/
def Values.Get (v : Values) (key : GoString) : GoString :=
  match v key with
  | [] => []
  | x :: _ => x

/-- Go url.URL, as far as the handler uses it: Query is the result of URL.Query(). -/
structure URL where
  Query : Values

/-- Go http.Request, as far as the handler uses it. -/
structure Request where
  URL : URL

/-- Go map[string]string. -/
abbrev Params := GoString → Option GoString

/-- Go index expression m[key] on a map[string]string: the zero value for a missing key. -/
def Params.index (m : Params) (key : GoString) : GoString := (m key).getD []

/-- One call received by an http.ResponseWriter. -/
inductive WriterCall where
  | Header
  | Write (bytes : List UInt8)
  | WriteHeader (statusCode : Int)
deriving DecidableEq, Repr

/-- An http.ResponseWriter that records the calls it receives, oldest first. -/
abbrev ResponseWriter := List WriterCall

/-- The bytes written to the body of a response so far. -/
def ResponseWriter.body : ResponseWriter → List UInt8
  | [] => []
  | WriterCall.Write bytes :: rest => bytes ++ ResponseWriter.body rest
  | _ :: rest => ResponseWriter.body rest

/-- The calls by which a handler sets a status or reaches the header map. -/
def ResponseWriter.explicit (w : ResponseWriter) : List WriterCall :=
  w.filter (fun c => match c with
    | WriterCall.Write _ => false
    | _ => true)

/-- Go fmt.Fprint(w, s) with one string operand: the operand is formatted as it is and
handed to w in one Write call. -/
def Fprint (w : ResponseWriter) (s : GoString) : ResponseWriter := w ++ [WriterCall.Write s]

/-- Go method Sign of SignResourceHandler. -/
def SignResourceHandler.Sign {σ : Type} (handler : SignResourceHandler σ)
    (responseWriter : ResponseWriter) (request : Request) (params : Params) (s : σ) :
    ResponseWriter × σ :=
  let method := request.URL.Query.Get (ascii "verb")
  let method := if method = [] then ascii "get" else method
  let signed := handler.signer.Sign (params.index (ascii "resource")) method
    (handler.clock.Now.Add (1 * Hour)) s
  (Fprint responseWriter signed.1, signed.2)

/-- A recording ResourceSigner double: its state is the list of the argument lists of the
Sign calls received so far; every call gives the canned URL. -/
def signRecorder (url : GoString → GoString → Time → GoString) :
    ResourceSigner (List (List Arg)) where
  Sign r m t log := (url r m t, log ++ [[Arg.str r, Arg.str m, Arg.time t]])

end bitsgo

/-! ## SHA-256 and hexadecimal encoding (standard library) -/

namespace sha256

/-- Addition of 32-bit words. -/
def add32 (a b : Nat) : Nat := (a + b) % 2 ^ 32

/-- Rotation of a 32-bit word to the right by n bits. -/
def rotr (x n : Nat) : Nat := ((x >>> n) ||| (x <<< (32 - n))) % 2 ^ 32

/-- The function Ch of FIPS 180-4. -/
def ch (x y z : Nat) : Nat := (x &&& y) ^^^ (((2 ^ 32 - 1) ^^^ x) &&& z)
/-- The function Maj of FIPS 180-4. -/
def maj (x y z : Nat) : Nat := (x &&& y) ^^^ (x &&& z) ^^^ (y &&& z)
/-- The function Σ0 of FIPS 180-4. -/
def bigSigma0 (x : Nat) : Nat := rotr x 2 ^^^ rotr x 13 ^^^ rotr x 22
/-- The function Σ1 of FIPS 180-4. -/
def bigSigma1 (x : Nat) : Nat := rotr x 6 ^^^ rotr x 11 ^^^ rotr x 25
/-- The function σ0 of FIPS 180-4. -/
def smallSigma0 (x : Nat) : Nat := rotr x 7 ^^^ rotr x 18 ^^^ (x >>> 3)
/-- The function σ1 of FIPS 180-4. -/
def smallSigma1 (x : Nat) : Nat := rotr x 17 ^^^ rotr x 19 ^^^ (x >>> 10)

/-- Whether n is a prime number, by trial division. -/
def isPrime (n : Nat) : Bool := 2 ≤ n && (List.range n).all (fun d => d < 2 || n % d != 0)

/-- The first 64 prime numbers, 2 to 311. -/
def primes : List Nat := (List.range 312).filter isPrime

/-- Binary search for the integer k-th root of n: r is raised by every power of two
below 2 ^ bits that keeps its k-th power at most n. -/
def iroot (k n : Nat) : Nat → Nat → Nat
  | 0, r => r
  | bits + 1, r => if (r + 2 ^ bits) ^ k ≤ n then iroot k n bits (r + 2 ^ bits) else iroot k n bits r

/-- The first 32 bits of the fractional part of the k-th root of p. -/
def fracRoot (k p : Nat) : Nat := iroot k (p * 2 ^ (32 * k)) 36 0 % 2 ^ 32

/-- The round constants of FIPS 180-4: the first 32 bits of the fractional parts of the
cube roots of the first 64 primes. -/
def K : List Nat := primes.map (fracRoot 3)

/-- The eight working words of the hash. -/
structure State where
  a : Nat
  b : Nat
  c : Nat
  d : Nat
  e : Nat
  f : Nat
  g : Nat
  h : Nat

/-- The initial hash value of FIPS 180-4: the first 32 bits of the fractional parts of
the square roots of the first 8 primes. -/
def init : State :=
  ⟨fracRoot 2 2, fracRoot 2 3, fracRoot 2 5, fracRoot 2 7,
   fracRoot 2 11, fracRoot 2 13, fracRoot 2 17, fracRoot 2 19⟩

/-- The big-endian 32-bit words of a byte sequence, four bytes at a time. -/
def words : List UInt8 → List Nat
  | a :: b :: c :: d :: rest =>
    (a.toNat * 2 ^ 24 + b.toNat * 2 ^ 16 + c.toNat * 2 ^ 8 + d.toNat) :: words rest
  | _ => []

/-- Extends the message schedule by n further words. -/
def extend : Nat → List Nat → List Nat
  | 0, w => w
  | n + 1, w =>
    let t := w.length
    let x := add32 (add32 (smallSigma1 (w.getD (t - 2) 0)) (w.getD (t - 7) 0))
      (add32 (smallSigma0 (w.getD (t - 15) 0)) (w.getD (t - 16) 0))
    extend n (w ++ [x])

/-- One round of the compression function, on a round constant and a schedule word. -/
def round (s : State) (kw : Nat × Nat) : State :=
  let t1 := add32 (add32 (add32 s.h (bigSigma1 s.e)) (add32 (ch s.e s.f s.g) kw.1)) kw.2
  let t2 := add32 (bigSigma0 s.a) (maj s.a s.b s.c)
  ⟨add32 t1 t2, s.a, s.b, s.c, add32 s.d t1, s.e, s.f, s.g⟩

/-- The compression function on one block of 64 bytes. -/
def compress (s : State) (block : List UInt8) : State :=
  let w := extend 48 (words block)
  let r := (K.zip w).foldl round s
  ⟨add32 s.a r.a, add32 s.b r.b, add32 s.c r.c, add32 s.d r.d,
   add32 s.e r.e, add32 s.f r.f, add32 s.g r.g, add32 s.h r.h⟩

/-- The n low bytes of x, most significant first. -/
def bigEndian : Nat → Nat → List UInt8
  | 0, _ => []
  | n + 1, x => UInt8.ofNat (x / 256 ^ n % 256) :: bigEndian n x

/-- The padded message: a one bit, zero bits up to 56 modulo 64 bytes, the bit length. -/
def pad (msg : List UInt8) : List UInt8 :=
  msg ++ [0x80] ++ List.replicate ((119 - msg.length % 64) % 64) 0 ++ bigEndian 8 (8 * msg.length)

/-- Runs the compression function over the first n blocks of the bytes. -/
def blocks : Nat → State → List UInt8 → State
  | 0, s, _ => s
  | n + 1, s, bytes => blocks n (compress s (bytes.take 64)) (bytes.drop 64)

/-- The SHA-256 checksum of a message: 32 bytes. -/
def Sum256 (msg : List UInt8) : List UInt8 :=
  let p := pad msg
  let s := blocks (p.length / 64) init p
  bigEndian 4 s.a ++ bigEndian 4 s.b ++ bigEndian 4 s.c ++ bigEndian 4 s.d ++
  bigEndian 4 s.e ++ bigEndian 4 s.f ++ bigEndian 4 s.g ++ bigEndian 4 s.h

end sha256

/-- The lowercase hexadecimal digit of a value below 16. -/
def hexDigit (n : Nat) : UInt8 := if n < 10 then UInt8.ofNat (48 + n) else UInt8.ofNat (87 + n)

/-- Lowercase hexadecimal encoding, two digits for each byte. -/
def hexEncode : List UInt8 → GoString
  | [] => []
  | b :: rest => hexDigit (b.toNat / 16) :: hexDigit (b.toNat % 16) :: hexEncode rest

/-- Whether a byte is one of the characters 0-9 and a-f. -/
def isLowerHex (b : UInt8) : Bool := (48 ≤ b.toNat && b.toNat ≤ 57) || (97 ≤ b.toNat && b.toNat ≤ 102)

/-! ## Package blobondemand -/

namespace blobondemand

/-- Modelled from the spec: the in-memory content addressable store of package
blobondemand, whose source is not at hand (only its test is). The store keeps the
content written under each digest key and the pointer record written under each alias,
newest first. -/
structure Store where
  blobs : List (GoString × List UInt8)
  pointers : List (GoString × GoString)

/-- Modelled from the spec: NewInMemoryStore of package blobondemand, a store with no
entry. -/
def NewInMemoryStore : Store := ⟨[], []⟩

/-- Modelled from the spec: the digest of a content, the algorithm name followed by the
hexadecimal SHA-256 of the raw bytes. -/
def digestOf (content : List UInt8) : GoString :=
  ascii "sha256:" ++ hexEncode (sha256.Sum256 content)

/-- Modelled from the spec: Put of the store of package blobondemand. It reads the full
stream, computes SHA-256 over the raw bytes, writes the content keyed by the digest and
returns the digest and the byte count. -/
def Store.Put (store : Store) (content : List UInt8) :
    (GoString × Int × Option GoString) × Store :=
  let digest := digestOf content
  ((digest, (content.length : Int), none), { store with blobs := (digest, content) :: store.blobs })

/-- Modelled from the spec: PutWithID of the store of package blobondemand. It performs
Put, then persists a pointer record under the alias whose value is the digest string. -/
def Store.PutWithID (store : Store) (id : GoString) (content : List UInt8) :
    (GoString × Int × Option GoString) × Store :=
  let r := store.Put content
  (r.1, { r.2 with pointers := (id, r.1.1) :: r.2.pointers })

/-- Modelled from the spec: Get of the store of package blobondemand. A key that matches
a digest streams the stored content into the destination; a key that matches an alias is
resolved to its digest first; otherwise the call fails with NotFound. -/
def Store.Get (store : Store) (key : GoString) (dest : List UInt8) :
    Option GoString × List UInt8 :=
  match store.blobs.lookup key with
  | some content => (none, dest ++ content)
  | none =>
    match store.pointers.lookup key with
    | some digest =>
      match store.blobs.lookup digest with
      | some content => (none, dest ++ content)
      | none => (some (ascii "NotFound"), dest)
    | none => (some (ascii "NotFound"), dest)

/-- Go TestSaveLoad of blonde_test.go: the error is the message of the t.Fatal or t.Fatalf
that stops the test, ok means the test passes. -/
def TestSaveLoad : Except GoString Unit :=
  let store := NewInMemoryStore
  let want := ascii "sha256:e0c6189f72b0e909e963116fb71625186098e75a843abffc6f7f5ab53df8cdd3"
  let r := store.Put (ascii "here-is-some-content")
  let key := r.1.1
  let store := r.2
  match r.1.2.2 with
  | some err => Except.error err
  | none =>
    if key ≠ want then
      Except.error (ascii "expected key to match sha of content but was " ++ key)
    else
      let g := store.Get want []
      match g.1 with
      | some err => Except.error err
      | none =>
        if g.2 ≠ ascii "here-is-some-content" then
          Except.error (ascii "expected to retrieve 'here-is-some-content' but was '" ++ g.2 ++ ascii "'")
        else
          let r := store.PutWithID (ascii "my-id") (ascii "here-is-some-content")
          let keyForID := r.1.1
          let store := r.2
          match r.1.2.2 with
          | some err => Except.error err
          | none =>
            if keyForID ≠ want then
              Except.error (ascii "expected key to match sha of content but was " ++ keyForID)
            else
              let g := store.Get (ascii "my-id") []
              match g.1 with
              | some err => Except.error err
              | none =>
                if g.2 ≠ ascii "here-is-some-content" then
                  Except.error (ascii "expected to retrieve 'here-is-some-content' but was '"
                    ++ g.2 ++ ascii "'")
                else
                  Except.ok ()

end blobondemand

/-! ## Theorems -/

/-! ### pathFor -/

/-- On every identifier pathFor returns, and what it returns is the row of the table. -/
theorem routes.pathFor_eq_shard (id : GoString) : routes.pathFor id = some (routes.shard id) := by
  match id with
  | [] => rfl
  | [a] => simp [routes.pathFor, strSlice, routes.shard, Sprintf2]
  | [a, b] => simp [routes.pathFor, strSlice, routes.shard, Sprintf2]
  | [a, b, c] => simp [routes.pathFor, strSlice, routes.shard, Sprintf3]
  | a :: b :: c :: d :: rest => simp [routes.pathFor, strSlice, routes.shard, Sprintf3]

/-- The length of a sharded path, by the length of the identifier. -/
theorem routes.shard_length (id : GoString) :
    (routes.shard id).length =
      if id.length = 0 then 0 else if id.length = 1 then 3
      else if id.length = 2 then 5 else if id.length = 3 then 8 else id.length + 6 := by
  match id with
  | [] => rfl
  | [a] => rfl
  | [a, b] => rfl
  | [a, b, c] => rfl
  | a :: b :: c :: d :: rest => simp [routes.shard]

/-- A sharded path ends with the identifier it was made from. -/
theorem routes.shard_ends_with (id : GoString) : ∃ dirs, routes.shard id = dirs ++ id := by
  match id with
  | [] => exact ⟨[], rfl⟩
  | [a] => exact ⟨[a, slash], rfl⟩
  | [a, b] => exact ⟨[a, b, slash], rfl⟩
  | [a, b, c] => exact ⟨[a, b, slash, c, slash], rfl⟩
  | a :: b :: c :: d :: rest => exact ⟨[a, b, slash, c, d, slash], rfl⟩

/-- The table is injective: the length of the path gives the length of the identifier,
and the identifier is the end of the path. -/
theorem routes.shard_injective (a b : GoString) (h : routes.shard a = routes.shard b) :
    a = b := by
  have hl : a.length = b.length := by
    have h1 := congrArg List.length h
    rw [routes.shard_length, routes.shard_length] at h1
    split_ifs at h1 <;> omega
  obtain ⟨p, hp⟩ := routes.shard_ends_with a
  obtain ⟨q, hq⟩ := routes.shard_ends_with b
  rw [hp, hq] at h
  exact (List.append_inj' h hl).2

/-- For a prefix of four bytes or more, the sharded prefix starts the sharded path of
every identifier that starts with the prefix. -/
theorem routes.shard_prefix_of_long (p id : GoString) (hp : 4 ≤ p.length) (h : p <+: id) :
    routes.shard p <+: routes.shard id := by
  obtain ⟨t, rfl⟩ := h
  match p, hp with
  | a :: b :: c :: d :: rest, _ =>
    exact ⟨t, by simp [routes.shard]⟩

/-- C1: pathFor returns on every identifier, and its result is the row of the rewrite
table for the byte length of the identifier: id[0:2]/id[2:4]/id for four bytes or more,
id[0:2]/id[2:3]/id for three, id/id for two and for one, the empty string for the empty
identifier; it is the shard of the specification, and the five listed examples hold. -/
theorem routes.pathFor_table :
    (∀ id : GoString,
      routes.pathFor id = some (routes.shard id) ∧
      (4 ≤ id.length →
        routes.pathFor id = some (id.take 2 ++ [slash] ++ (id.take 4).drop 2 ++ [slash] ++ id)) ∧
      (id.length = 3 →
        routes.pathFor id = some (id.take 2 ++ [slash] ++ (id.take 3).drop 2 ++ [slash] ++ id)) ∧
      (id.length = 2 → routes.pathFor id = some (id ++ [slash] ++ id)) ∧
      (id.length = 1 → routes.pathFor id = some (id ++ [slash] ++ id)) ∧
      (id.length = 0 → routes.pathFor id = some [])) ∧
    routes.pathFor (ascii "a") = some (ascii "a/a") ∧
    routes.pathFor (ascii "ab") = some (ascii "ab/ab") ∧
    routes.pathFor (ascii "abc") = some (ascii "ab/c/abc") ∧
    routes.pathFor (ascii "e0c6") = some (ascii "e0/c6/e0c6") ∧
    routes.pathFor (ascii "") = some (ascii "") := by
  refine ⟨fun id => ⟨routes.pathFor_eq_shard id, ?_, ?_, ?_, ?_, ?_⟩,
    by decide, by decide, by decide, by decide, by decide⟩
  · intro h
    match id, h with
    | a :: b :: c :: d :: rest, _ => simp [routes.pathFor, strSlice, Sprintf3]
  · intro h
    match id, h with
    | [a, b, c], _ => simp [routes.pathFor, strSlice, Sprintf3]
  · intro h
    match id, h with
    | [a, b], _ => simp [routes.pathFor, strSlice, Sprintf2]
  · intro h
    match id, h with
    | [a], _ => simp [routes.pathFor, strSlice, Sprintf2]
  · intro h
    match id, h with
    | [], _ => rfl

/-- Witness of C1 on an identifier of eight bytes. -/
theorem routes.pathFor_table_witness :
    4 ≤ (ascii "e0c6189f").length ∧
    routes.pathFor (ascii "e0c6189f") =
      some ((ascii "e0c6189f").take 2 ++ [slash] ++ ((ascii "e0c6189f").take 4).drop 2
        ++ [slash] ++ ascii "e0c6189f") :=
  ⟨by decide, (routes.pathFor_table.1 (ascii "e0c6189f")).2.1 (by decide)⟩

/-- C10: pathFor is injective: two identifiers with the same sharded path are the same
identifier, whatever their lengths and bytes (the separator included). -/
theorem routes.pathFor_injective (a b : GoString) (h : routes.pathFor a = routes.pathFor b) :
    a = b := by
  rw [routes.pathFor_eq_shard, routes.pathFor_eq_shard] at h
  exact routes.shard_injective a b (Option.some.inj h)

/-- Witness of C10 on an identifier that contains the separator. -/
theorem routes.pathFor_injective_witness :
    routes.pathFor (ascii "a/b") = routes.pathFor [97, 47, 98] ∧ ascii "a/b" = [97, 47, 98] :=
  ⟨by decide, routes.pathFor_injective (ascii "a/b") [97, 47, 98] (by decide)⟩

/-! ### The Blobstore decorator -/

/-- C2: over a recording double as delegate, each of Get, Head, Put, Copy, Exists and
Delete of the decorator returns and leaves the log of the double longer by exactly one
call: the call to the method of the same name, with pathFor of each identifier in the
place of the identifier (of both for Copy) and the Put source as it was given. -/
theorem routes.decorator_records_one_call {β ρ ε : Type} (ans : routes.Answers β ρ ε)
    (log : List (routes.Call ρ)) (path src dest : GoString) (source : ρ) :
    ∃ p q r, routes.pathFor path = some p ∧ routes.pathFor src = some q ∧
      routes.pathFor dest = some r ∧
      ((routes.DecorateWithPartitioningPathBlobstore (routes.recorder ans)).Get path log).map
        Prod.snd = some (log ++ [routes.Call.Get p]) ∧
      ((routes.DecorateWithPartitioningPathBlobstore (routes.recorder ans)).Head path log).map
        Prod.snd = some (log ++ [routes.Call.Head p]) ∧
      ((routes.DecorateWithPartitioningPathBlobstore (routes.recorder ans)).Put path source
        log).map Prod.snd = some (log ++ [routes.Call.Put p source]) ∧
      ((routes.DecorateWithPartitioningPathBlobstore (routes.recorder ans)).Copy src dest
        log).map Prod.snd = some (log ++ [routes.Call.Copy q r]) ∧
      ((routes.DecorateWithPartitioningPathBlobstore (routes.recorder ans)).Exists path
        log).map Prod.snd = some (log ++ [routes.Call.Exists p]) ∧
      ((routes.DecorateWithPartitioningPathBlobstore (routes.recorder ans)).Delete path
        log).map Prod.snd = some (log ++ [routes.Call.Delete p]) := by
  refine ⟨routes.shard path, routes.shard src, routes.shard dest, routes.pathFor_eq_shard _,
    routes.pathFor_eq_shard _, routes.pathFor_eq_shard _, ?_, ?_, ?_, ?_, ?_, ?_⟩ <;>
  simp [routes.PartitioningPathBlobstoreDecorator.Get,
    routes.PartitioningPathBlobstoreDecorator.Head,
    routes.PartitioningPathBlobstoreDecorator.Put,
    routes.PartitioningPathBlobstoreDecorator.Copy,
    routes.PartitioningPathBlobstoreDecorator.Exists,
    routes.PartitioningPathBlobstoreDecorator.Delete,
    routes.DecorateWithPartitioningPathBlobstore, routes.recorder, routes.pathFor_eq_shard]

/-- C3: over a recording double as delegate, DeletePrefix of the decorator on the empty
prefix leaves the log longer by exactly one call, DeletePrefix on the empty prefix, and
on a non-empty prefix by exactly one call, DeletePrefix on pathFor of the prefix. -/
theorem routes.decorator_deletePrefix_records {β ρ ε : Type} (ans : routes.Answers β ρ ε)
    (log : List (routes.Call ρ)) :
    ((routes.DecorateWithPartitioningPathBlobstore (routes.recorder ans)).DeletePrefix []
      log).map Prod.snd = some (log ++ [routes.Call.DeletePrefix []]) ∧
    ∀ pre : GoString, pre ≠ [] →
      ∃ p, routes.pathFor pre = some p ∧
        ((routes.DecorateWithPartitioningPathBlobstore (routes.recorder ans)).DeletePrefix pre
          log).map Prod.snd = some (log ++ [routes.Call.DeletePrefix p]) := by
  refine ⟨by simp [routes.PartitioningPathBlobstoreDecorator.DeletePrefix,
    routes.DecorateWithPartitioningPathBlobstore, routes.recorder], ?_⟩
  intro pre hpre
  refine ⟨routes.shard pre, routes.pathFor_eq_shard _, ?_⟩
  simp [routes.PartitioningPathBlobstoreDecorator.DeletePrefix,
    routes.DecorateWithPartitioningPathBlobstore, routes.recorder, routes.pathFor_eq_shard, hpre]

/-- Witness of C3 on the prefix "abcd", with a double that answers no error. -/
theorem routes.decorator_deletePrefix_records_witness :
    ascii "abcd" ≠ [] ∧
    ∃ p, routes.pathFor (ascii "abcd") = some p ∧
      ((routes.DecorateWithPartitioningPathBlobstore (routes.recorder
        (⟨fun _ => ((), [], none), fun _ => ([], none), fun _ _ => ([], none),
          fun _ _ => ([], none), fun _ => (false, none), fun _ => none, fun _ => none⟩ :
          routes.Answers Unit Unit Unit))).DeletePrefix (ascii "abcd") []).map Prod.snd =
        some ([] ++ [routes.Call.DeletePrefix p]) :=
  ⟨by decide, (routes.decorator_deletePrefix_records _ []).2 (ascii "abcd") (by decide)⟩

/-- C4: for every delegate, in every state of it, each method of the decorator returns,
and its results (body, redirect location, the Exists boolean, the error) and the state it
leaves are exactly those of the delegate method of the same name called on the rewritten
arguments; so the decorator reports an error exactly when the delegate does, and it is
the same error value. -/
theorem routes.decorator_returns_delegate_results {σ β ρ ε : Type}
    (delegate : routes.Blobstore σ β ρ ε) (s : σ) (path src dest pre : GoString) (source : ρ) :
    ∃ p q r x, routes.pathFor path = some p ∧ routes.pathFor src = some q ∧
      routes.pathFor dest = some r ∧ routes.pathFor pre = some x ∧
      (routes.DecorateWithPartitioningPathBlobstore delegate).Get path s
        = some (delegate.Get p s) ∧
      (routes.DecorateWithPartitioningPathBlobstore delegate).Head path s
        = some (delegate.Head p s) ∧
      (routes.DecorateWithPartitioningPathBlobstore delegate).Put path source s
        = some (delegate.Put p source s) ∧
      (routes.DecorateWithPartitioningPathBlobstore delegate).Copy src dest s
        = some (delegate.Copy q r s) ∧
      (routes.DecorateWithPartitioningPathBlobstore delegate).Exists path s
        = some (delegate.Exists p s) ∧
      (routes.DecorateWithPartitioningPathBlobstore delegate).Delete path s
        = some (delegate.Delete p s) ∧
      (routes.DecorateWithPartitioningPathBlobstore delegate).DeletePrefix pre s
        = some (delegate.DeletePrefix x s) := by
  refine ⟨routes.shard path, routes.shard src, routes.shard dest, routes.shard pre,
    routes.pathFor_eq_shard _, routes.pathFor_eq_shard _, routes.pathFor_eq_shard _,
    routes.pathFor_eq_shard _, ?_, ?_, ?_, ?_, ?_, ?_, ?_⟩
  · simp [routes.PartitioningPathBlobstoreDecorator.Get,
      routes.DecorateWithPartitioningPathBlobstore, routes.pathFor_eq_shard]
  · simp [routes.PartitioningPathBlobstoreDecorator.Head,
      routes.DecorateWithPartitioningPathBlobstore, routes.pathFor_eq_shard]
  · simp [routes.PartitioningPathBlobstoreDecorator.Put,
      routes.DecorateWithPartitioningPathBlobstore, routes.pathFor_eq_shard]
  · simp [routes.PartitioningPathBlobstoreDecorator.Copy,
      routes.DecorateWithPartitioningPathBlobstore, routes.pathFor_eq_shard]
  · simp [routes.PartitioningPathBlobstoreDecorator.Exists,
      routes.DecorateWithPartitioningPathBlobstore, routes.pathFor_eq_shard]
  · simp [routes.PartitioningPathBlobstoreDecorator.Delete,
      routes.DecorateWithPartitioningPathBlobstore, routes.pathFor_eq_shard]
  · by_cases h : pre = []
    · subst h
      simp [routes.PartitioningPathBlobstoreDecorator.DeletePrefix,
        routes.DecorateWithPartitioningPathBlobstore, routes.shard]
    · simp [routes.PartitioningPathBlobstoreDecorator.DeletePrefix,
        routes.DecorateWithPartitioningPathBlobstore, routes.pathFor_eq_shard, h]

/-- After DeletePrefix of the in-memory delegate on x, no stored path starts with x. -/
theorem routes.memStore_deletePrefix_clears (x y : GoString) (hxy : x <+: y)
    (s : List (GoString × List UInt8)) :
    (routes.memStore.Exists y (routes.memStore.DeletePrefix x s).2).1 = (false, none) := by
  have hnone : ((s.filter (fun e => !(x.isPrefixOf e.1))).any (fun e => e.1 == y)) = false := by
    rw [Bool.eq_false_iff]
    intro hany
    rw [List.any_eq_true] at hany
    obtain ⟨e, he, hey⟩ := hany
    rw [List.mem_filter] at he
    have hey2 : e.1 = y := by simpa using hey
    have hpre : x.isPrefixOf e.1 = true := by
      rw [hey2]
      exact List.isPrefixOf_iff_prefix.mpr hxy
    simp [hpre] at he
  simp only [routes.memStore]
  rw [hnone]

/-- C9, the amended claim: for every prefix p of four bytes or more and every identifier
id that starts with p, pathFor of id starts with pathFor of p; and over the in-memory
delegate, in every state, DeletePrefix of the decorator on p returns without error and
leaves a store in which Exists of the decorator on id answers false. -/
theorem routes.decorator_deletePrefix_covers (p id : GoString) (hp : 4 ≤ p.length)
    (hid : p <+: id) (s : List (GoString × List UInt8)) :
    ∃ x y, routes.pathFor p = some x ∧ routes.pathFor id = some y ∧ x <+: y ∧
      ∃ s1, (routes.DecorateWithPartitioningPathBlobstore routes.memStore).DeletePrefix p s
          = some (none, s1) ∧
        (routes.DecorateWithPartitioningPathBlobstore routes.memStore).Exists id s1
          = some ((false, none), s1) := by
  have hne : p ≠ [] := by
    intro h
    rw [h] at hp
    simp at hp
  have hpre := routes.shard_prefix_of_long p id hp hid
  refine ⟨routes.shard p, routes.shard id, routes.pathFor_eq_shard _, routes.pathFor_eq_shard _,
    hpre, (routes.memStore.DeletePrefix (routes.shard p) s).2, ?_, ?_⟩
  · simp [routes.PartitioningPathBlobstoreDecorator.DeletePrefix,
      routes.DecorateWithPartitioningPathBlobstore, routes.pathFor_eq_shard, hne, routes.memStore]
  · have h := routes.memStore_deletePrefix_clears _ _ hpre s
    simp only [routes.PartitioningPathBlobstoreDecorator.Exists,
      routes.DecorateWithPartitioningPathBlobstore, routes.pathFor_eq_shard]
    simp only [Option.bind_eq_bind, Option.some_bind, Option.pure_def, Option.some.injEq]
    exact Prod.ext h rfl

/-- Witness of C9 (amended) on the prefix "e0c6" and the identifier "e0c6189f", stored
before the deletion. -/
theorem routes.decorator_deletePrefix_covers_witness :
    4 ≤ (ascii "e0c6").length ∧ ascii "e0c6" <+: ascii "e0c6189f" ∧
    ∃ x y, routes.pathFor (ascii "e0c6") = some x ∧ routes.pathFor (ascii "e0c6189f") = some y ∧
      x <+: y ∧
      ∃ s1, (routes.DecorateWithPartitioningPathBlobstore routes.memStore).DeletePrefix
            (ascii "e0c6") [(ascii "e0/c6/e0c6189f", ascii "content")] = some (none, s1) ∧
        (routes.DecorateWithPartitioningPathBlobstore routes.memStore).Exists
            (ascii "e0c6189f") s1 = some ((false, none), s1) :=
  ⟨by decide, by decide,
    routes.decorator_deletePrefix_covers (ascii "e0c6") (ascii "e0c6189f") (by decide)
      (by decide) [(ascii "e0/c6/e0c6189f", ascii "content")]⟩

/-- C9, the claim as stated fails on the non-empty prefix "a" and the identifier "ab",
which starts with it: pathFor of "ab" is "ab/ab", which does not start with "a/a",
pathFor of "a"; and a blob put through the decorator under "ab" into the empty in-memory
delegate is still there after DeletePrefix of the decorator on "a". Prefixes of two and
of three bytes fail likewise, on "ab" with "abc" and on "abc" with "abcd". -/
theorem routes.decorator_deletePrefix_short_prefix :
    ascii "a" ≠ [] ∧ ascii "a" <+: ascii "ab" ∧
    routes.pathFor (ascii "a") = some (ascii "a/a") ∧
    routes.pathFor (ascii "ab") = some (ascii "ab/ab") ∧
    ¬ (ascii "a/a" <+: ascii "ab/ab") ∧
    (ascii "ab" <+: ascii "abc" ∧ routes.pathFor (ascii "abc") = some (ascii "ab/c/abc") ∧
      ¬ (ascii "ab/ab" <+: ascii "ab/c/abc")) ∧
    (ascii "abc" <+: ascii "abcd" ∧ routes.pathFor (ascii "abcd") = some (ascii "ab/cd/abcd") ∧
      ¬ (ascii "ab/c/abc" <+: ascii "ab/cd/abcd")) ∧
    (do
      let r1 ← (routes.DecorateWithPartitioningPathBlobstore routes.memStore).Put
        (ascii "ab") (ascii "content") []
      let r2 ← (routes.DecorateWithPartitioningPathBlobstore routes.memStore).DeletePrefix
        (ascii "a") r1.2
      let r3 ← (routes.DecorateWithPartitioningPathBlobstore routes.memStore).Exists
        (ascii "ab") r2.2
      pure r3.1) = some (true, none) := by
  refine ⟨by decide, by decide, by decide, by decide, by decide, by decide, by decide,
    by decide⟩

/-! ### The ResourceSigner decorator -/

/-- C5, the amended claim: Sign of PartitioningPathResourceSigner takes a resource and a
method and no expiration. For every delegate, in every state, it returns, and what it
returns and the state it leaves are those of the delegate Sign called on pathFor of the
resource and the method as given; over a recording double that is exactly one call, with
those two arguments; and pathFor of the resource is the path that Get and Put of the
Blobstore decorator hand to their delegate for the same identifier. -/
theorem routes.signer_forwards {σ β ρ ε : Type} (delegate : routes.ResourceSigner σ) (s : σ)
    (url : GoString → GoString → GoString) (log : List (List Arg))
    (ans : routes.Answers β ρ ε) (blog : List (routes.Call ρ)) (source : ρ)
    (resource method : GoString) :
    ∃ p, routes.pathFor resource = some p ∧
      (routes.DecorateWithPartitioningPathResourceSigner delegate).Sign resource method s
        = some (delegate.Sign p method s) ∧
      (routes.DecorateWithPartitioningPathResourceSigner (routes.signRecorder url)).Sign
        resource method log = some (url p method, log ++ [[Arg.str p, Arg.str method]]) ∧
      ((routes.DecorateWithPartitioningPathBlobstore (routes.recorder ans)).Get resource
        blog).map Prod.snd = some (blog ++ [routes.Call.Get p]) ∧
      ((routes.DecorateWithPartitioningPathBlobstore (routes.recorder ans)).Put resource source
        blog).map Prod.snd = some (blog ++ [routes.Call.Put p source]) := by
  refine ⟨routes.shard resource, routes.pathFor_eq_shard _, ?_, ?_, ?_, ?_⟩ <;>
  simp [routes.PartitioningPathResourceSigner.Sign,
    routes.DecorateWithPartitioningPathResourceSigner, routes.signRecorder,
    routes.PartitioningPathBlobstoreDecorator.Get,
    routes.PartitioningPathBlobstoreDecorator.Put,
    routes.DecorateWithPartitioningPathBlobstore, routes.recorder, routes.pathFor_eq_shard]

/-- C5, the claim as stated fails on the resource "abc" and the method "get": the one
call the recording delegate receives has the two arguments "ab/c/abc" and "get", so it is
not, for any expiration, a call with the three arguments path, method and expiration. -/
theorem routes.signer_passes_no_expiration :
    ((routes.DecorateWithPartitioningPathResourceSigner
        (routes.signRecorder (fun _ _ => ascii "https://signed"))).Sign
        (ascii "abc") (ascii "get") []).map Prod.snd
      = some [[Arg.str (ascii "ab/c/abc"), Arg.str (ascii "get")]] ∧
    ¬ ∃ expiration : Time,
      ((routes.DecorateWithPartitioningPathResourceSigner
          (routes.signRecorder (fun _ _ => ascii "https://signed"))).Sign
          (ascii "abc") (ascii "get") []).map Prod.snd
        = some [[Arg.str (ascii "ab/c/abc"), Arg.str (ascii "get"), Arg.time expiration]] := by
  have h : ((routes.DecorateWithPartitioningPathResourceSigner
        (routes.signRecorder (fun _ _ => ascii "https://signed"))).Sign
        (ascii "abc") (ascii "get") []).map Prod.snd
      = some [[Arg.str (ascii "ab/c/abc"), Arg.str (ascii "get")]] := by decide
  refine ⟨h, ?_⟩
  rintro ⟨e, he⟩
  rw [h] at he
  simp at he

/-! ### The sign handler -/

/-- The body of a recording writer after one more Write. -/
theorem bitsgo.body_append_write (w : bitsgo.ResponseWriter) (bytes : List UInt8) :
    bitsgo.ResponseWriter.body (w ++ [bitsgo.WriterCall.Write bytes])
      = bitsgo.ResponseWriter.body w ++ bytes := by
  induction w with
  | nil => simp [bitsgo.ResponseWriter.body]
  | cons c rest ih =>
    cases c <;> simp [bitsgo.ResponseWriter.body, ih]

/-- A Write adds no call that sets a status or reaches the header map. -/
theorem bitsgo.explicit_append_write (w : bitsgo.ResponseWriter) (bytes : List UInt8) :
    bitsgo.ResponseWriter.explicit (w ++ [bitsgo.WriterCall.Write bytes])
      = bitsgo.ResponseWriter.explicit w := by
  simp [bitsgo.ResponseWriter.explicit, List.filter_append]

/-- One hour added to a clock reading that is at least one hour before the last
representable second: the same nanoseconds, 3600 seconds later. -/
theorem Time.Add_one_hour (now : Time) (hvalid : now.valid) (hroom : now.sec + 3600 ≤ maxInt64) :
    now.Add (1 * Hour) = ⟨now.sec + 3600, now.nsec⟩ := by
  obtain ⟨h1, h2, h3, h4⟩ := hvalid
  have hd : Int.tdiv (1 * Hour) 1000000000 = 3600 := by decide
  have hm : Int.tmod (1 * Hour) 1000000000 = 0 := by decide
  have hw : wrapInt64 (now.sec + 3600) = now.sec + 3600 := by
    unfold wrapInt64
    unfold maxInt64 at hroom
    omega
  unfold Time.Add
  rw [hd, hm]
  have hn1 : ¬ (now.nsec + 0 ≥ 1000000000) := by omega
  have hn2 : ¬ (now.nsec + 0 < 0) := by omega
  rw [if_neg hn1, if_neg hn2]
  unfold Time.addSec
  simp only [hw]
  have hgt : decide (now.sec + 3600 > now.sec) = decide ((3600 : Int) > 0) := by
    have : now.sec + 3600 > now.sec := by omega
    simp [this]
  rw [if_pos hgt]
  simp

/-- For every request, parameter map, clock reading and writer, Sign of the handler made
by NewSignResourceHandler leaves the log of a recording signer longer by exactly one
call, on params["resource"], the verb and Add(1*time.Hour) of the clock reading. -/
theorem bitsgo.handler_records_call (url : GoString → GoString → Time → GoString)
    (log : List (List Arg)) (w : bitsgo.ResponseWriter) (request : bitsgo.Request)
    (params : bitsgo.Params) (now : Time) :
    ((bitsgo.NewSignResourceHandler (bitsgo.signRecorder url) ⟨now⟩).Sign w request params
        log).2 =
      log ++ [[Arg.str ((params (ascii "resource")).getD []),
        Arg.str (match request.URL.Query (ascii "verb") with
          | [] => ascii "get"
          | v :: _ => if v = [] then ascii "get" else v),
        Arg.time (now.Add (1 * Hour))]] := by
  cases hq : request.URL.Query (ascii "verb") with
  | nil =>
    simp [bitsgo.SignResourceHandler.Sign, bitsgo.NewSignResourceHandler, bitsgo.signRecorder,
      bitsgo.Values.Get, bitsgo.Params.index, hq]
  | cons v rest =>
    simp [bitsgo.SignResourceHandler.Sign, bitsgo.NewSignResourceHandler, bitsgo.signRecorder,
      bitsgo.Values.Get, bitsgo.Params.index, hq]

/-- C6, the amended claim: for every request, parameter map and writer, and every clock
reading now that is at least one hour before the last second a time.Time can hold, Sign
of the handler made by NewSignResourceHandler leaves the log of a recording signer longer
by exactly one call, whose arguments are params["resource"], the verb and the expiration:
the verb is "get" when the query has no verb parameter or an empty one and is the (first)
value of the parameter otherwise, and the expiration is now plus exactly one hour, the
same nanoseconds 3600 seconds later. -/
theorem bitsgo.handler_signs_once (url : GoString → GoString → Time → GoString)
    (log : List (List Arg)) (w : bitsgo.ResponseWriter) (request : bitsgo.Request)
    (params : bitsgo.Params) (now : Time) (hvalid : now.valid)
    (hroom : now.sec + 3600 ≤ maxInt64) :
    ((bitsgo.NewSignResourceHandler (bitsgo.signRecorder url) ⟨now⟩).Sign w request params
        log).2 =
      log ++ [[Arg.str ((params (ascii "resource")).getD []),
        Arg.str (match request.URL.Query (ascii "verb") with
          | [] => ascii "get"
          | v :: _ => if v = [] then ascii "get" else v),
        Arg.time ⟨now.sec + 3600, now.nsec⟩]] := by
  rw [bitsgo.handler_records_call, Time.Add_one_hour now hvalid hroom]

/-- Witness of C6 (amended) on a request with the verb "put", the resource "abc" and a
clock that reads 1500000000 seconds and 5 nanoseconds. -/
theorem bitsgo.handler_signs_once_witness :
    (⟨1500000000, 5⟩ : Time).valid ∧ (⟨1500000000, 5⟩ : Time).sec + 3600 ≤ maxInt64 ∧
    ((bitsgo.NewSignResourceHandler (bitsgo.signRecorder (fun _ _ _ => ascii "https://signed"))
        ⟨⟨1500000000, 5⟩⟩).Sign []
        ⟨⟨fun key => if key = ascii "verb" then [ascii "put"] else []⟩⟩
        (fun key => if key = ascii "resource" then some (ascii "abc") else none) []).2 =
      [] ++ [[Arg.str (((fun key => if key = ascii "resource" then some (ascii "abc") else none :
          bitsgo.Params) (ascii "resource")).getD []),
        Arg.str (match (fun key => if key = ascii "verb" then [ascii "put"] else [] :
            bitsgo.Values) (ascii "verb") with
          | [] => ascii "get"
          | v :: _ => if v = [] then ascii "get" else v),
        Arg.time ⟨(⟨1500000000, 5⟩ : Time).sec + 3600, (⟨1500000000, 5⟩ : Time).nsec⟩]] :=
  ⟨by decide, by decide,
    bitsgo.handler_signs_once _ [] [] ⟨⟨fun key => if key = ascii "verb" then [ascii "put"] else []⟩⟩
      (fun key => if key = ascii "resource" then some (ascii "abc") else none) ⟨1500000000, 5⟩
      (by decide) (by decide)⟩

/-- C6, the claim as stated fails on a clock that reads ten seconds before the last
second a time.Time can hold (a valid reading): on a request without verb for the resource
"abc" the one call the recording signer receives has the expiration at that last second,
ten seconds after the reading and not one hour after it. -/
theorem bitsgo.handler_expiration_saturates :
    (⟨9223372036854775797, 0⟩ : Time).valid ∧
    ((bitsgo.NewSignResourceHandler (bitsgo.signRecorder (fun _ _ _ => ascii "https://signed"))
        ⟨⟨9223372036854775797, 0⟩⟩).Sign [] ⟨⟨fun _ => []⟩⟩ (fun _ => some (ascii "abc")) []).2
      = [[Arg.str (ascii "abc"), Arg.str (ascii "get"),
          Arg.time ⟨9223372036854775797 + 10, 0⟩]] ∧
    ((bitsgo.NewSignResourceHandler (bitsgo.signRecorder (fun _ _ _ => ascii "https://signed"))
        ⟨⟨9223372036854775797, 0⟩⟩).Sign [] ⟨⟨fun _ => []⟩⟩ (fun _ => some (ascii "abc")) []).2
      ≠ [[Arg.str (ascii "abc"), Arg.str (ascii "get"),
          Arg.time ⟨9223372036854775797 + 3600, 0⟩]] := by
  refine ⟨by decide, by decide, by decide⟩

/-- C7: for every request, over a recording signer and a recording writer, Sign of the
handler hands the writer exactly one call more, a Write of the URL the signer returned
for the one call it received; so the body is the body before followed by exactly that
URL (the URL alone on a fresh writer), and no call that sets a status or reaches the
header map is added. -/
theorem bitsgo.handler_writes_url (url : GoString → GoString → Time → GoString)
    (log : List (List Arg)) (w : bitsgo.ResponseWriter) (request : bitsgo.Request)
    (params : bitsgo.Params) (clock : bitsgo.Clock) :
    ∃ r m t,
      (bitsgo.NewSignResourceHandler (bitsgo.signRecorder url) clock).Sign w request params log
        = (w ++ [bitsgo.WriterCall.Write (url r m t)],
           log ++ [[Arg.str r, Arg.str m, Arg.time t]]) ∧
      bitsgo.ResponseWriter.body
        ((bitsgo.NewSignResourceHandler (bitsgo.signRecorder url) clock).Sign w request params
          log).1 = bitsgo.ResponseWriter.body w ++ url r m t ∧
      bitsgo.ResponseWriter.body
        ((bitsgo.NewSignResourceHandler (bitsgo.signRecorder url) clock).Sign [] request params
          log).1 = url r m t ∧
      bitsgo.ResponseWriter.explicit
        ((bitsgo.NewSignResourceHandler (bitsgo.signRecorder url) clock).Sign w request params
          log).1 = bitsgo.ResponseWriter.explicit w := by
  refine ⟨bitsgo.Params.index params (ascii "resource"),
    (if bitsgo.Values.Get request.URL.Query (ascii "verb") = [] then ascii "get"
      else bitsgo.Values.Get request.URL.Query (ascii "verb")),
    clock.Now.Add (1 * Hour), rfl, ?_, ?_, ?_⟩
  · exact bitsgo.body_append_write _ _
  · exact bitsgo.body_append_write [] _
  · exact bitsgo.explicit_append_write _ _

/-! ### The content addressable store -/

set_option maxRecDepth 100000

/-- The big-endian rendering in n bytes has n bytes. -/
theorem sha256.bigEndian_length (n x : Nat) : (sha256.bigEndian n x).length = n := by
  induction n with
  | zero => rfl
  | succ k ih => simp [sha256.bigEndian, ih]

/-- A checksum has 32 bytes. -/
theorem sha256.Sum256_length (msg : List UInt8) : (sha256.Sum256 msg).length = 32 := by
  simp [sha256.Sum256, sha256.bigEndian_length]

/-- The encoding has two characters for each byte. -/
theorem hexEncode_length (bytes : List UInt8) : (hexEncode bytes).length = 2 * bytes.length := by
  induction bytes with
  | nil => rfl
  | cons b rest ih => simp [hexEncode, ih]; omega

/-- The digit of a value below 16 is one of 0-9 and a-f. -/
theorem hexDigit_lower : ∀ n, n < 16 → isLowerHex (hexDigit n) = true := by decide

/-- The encoding uses the characters 0-9 and a-f only. -/
theorem hexEncode_lower (bytes : List UInt8) : (hexEncode bytes).all isLowerHex = true := by
  induction bytes with
  | nil => rfl
  | cons b rest ih =>
    have h1 : b.toNat / 16 < 16 := by
      have := b.toNat_lt
      omega
    have h2 : b.toNat % 16 < 16 := Nat.mod_lt _ (by decide)
    simp only [hexEncode, List.all_cons, hexDigit_lower _ h1, hexDigit_lower _ h2, ih,
      Bool.and_self]

/-- C8: on every store and every content, Put succeeds and returns the digest "sha256:"
followed by the hexadecimal SHA-256 of the content, 64 characters out of 0-9 and a-f, and
the byte count; a following Get on that digest succeeds and appends exactly the content
to the destination. For "here-is-some-content" the digest is the one of the test, and
TestSaveLoad passes. -/
theorem blobondemand.put_get_round_trip :
    (∀ (store : blobondemand.Store) (content dest : List UInt8),
      (store.Put content).1
        = (ascii "sha256:" ++ hexEncode (sha256.Sum256 content), (content.length : Int), none) ∧
      (hexEncode (sha256.Sum256 content)).length = 64 ∧
      (hexEncode (sha256.Sum256 content)).all isLowerHex = true ∧
      (store.Put content).2.Get (store.Put content).1.1 dest = (none, dest ++ content)) ∧
    (blobondemand.NewInMemoryStore.Put (ascii "here-is-some-content")).1.1
      = ascii "sha256:e0c6189f72b0e909e963116fb71625186098e75a843abffc6f7f5ab53df8cdd3" ∧
    blobondemand.TestSaveLoad = Except.ok () := by
  refine ⟨fun store content dest => ⟨rfl, ?_, hexEncode_lower _, ?_⟩, by decide, ?_⟩
  · rw [hexEncode_length, sha256.Sum256_length]
  · simp [blobondemand.Store.Put, blobondemand.Store.Get, List.lookup]
  · rfl
